import Mathlib

/-!
Verification development for the Alcohollocatorapp repository.

The file shallowly embeds the two core subsystems:
* the Heading Estimator of `src/hooks/useDeviceOrientation.ts`
  (angle normalization, shortest angular delta, exponential smoothing,
  Euler-to-compass conversion, the `deviceorientation` handler), and
* the Geo Query Engine of `src/services/nominatim.ts`
  (rate limiter, cache keys, cache/dedup flow of `queryOverpass`,
  endpoint failover of `fetchWithFallback`, response mapping).

JavaScript numbers are modelled as rationals (reals where the source uses
transcendental functions); millisecond timestamps are modelled as integers
or naturals.  JavaScript `%` is remainder after truncated division and is
modelled by `jsMod`; `Math.round` is modelled by `jsRound`.
-/

namespace AlcoholLocator

/-! ## Angle arithmetic (useDeviceOrientation.ts)

`jsTrunc`/`jsMod` model the JavaScript `%` operator: the remainder after
division truncated toward zero, carrying the sign of the dividend. -/

/-- Truncation toward zero, as JavaScript coerces for the `%` operator. -/
def jsTrunc {α : Type} [LinearOrderedField α] [FloorRing α] (x : α) : ℤ :=
  if 0 ≤ x then ⌊x⌋ else ⌈x⌉

/-- The JavaScript `%` operator on numbers: `a - b * trunc (a / b)`. -/
def jsMod {α : Type} [LinearOrderedField α] [FloorRing α] (a b : α) : α :=
  a - b * (jsTrunc (a / b) : α)

/-- Function `normalizeAngle` from useDeviceOrientation.ts:
`let a = deg % 360; if (a < 0) a += 360; return a`. -/
def normalizeAngle {α : Type} [LinearOrderedField α] [FloorRing α] (deg : α) : α :=
  let a := jsMod deg 360
  if a < 0 then a + 360 else a

/-- Function `shortestDelta` from useDeviceOrientation.ts:
delta from `a` to `b`, `(b - a + 540) % 360 - 180`. -/
def shortestDelta {α : Type} [LinearOrderedField α] [FloorRing α] (a b : α) : α :=
  jsMod (b - a + 540) 360 - 180

/-- The smoothing step of `updateHeading` in useDeviceOrientation.ts: with a
previous smoothed heading `p` the emitted value is
`normalizeAngle (p + 0.2 * shortestDelta p new)`; the first sample after
(re)activation (`prev = none`) is emitted unsmoothed. -/
def smoothedHeading {α : Type} [LinearOrderedField α] [FloorRing α]
    (prev : Option α) (newHeading : α) : α :=
  match prev with
  | some p => normalizeAngle (p + (1 / 5 : α) * shortestDelta p newHeading)
  | none => newHeading

/-- Mathematical (floor-based) modulus, used to state spec-side properties:
`mathMod x m = x - m * ⌊x / m⌋`, which lies in `[0, m)` for `m > 0`. -/
def mathMod {α : Type} [LinearOrderedField α] [FloorRing α] (x m : α) : α :=
  x - m * (⌊x / m⌋ : α)

/-- Circular (shortest-arc) distance between two angles in degrees. -/
def circDist {α : Type} [LinearOrderedField α] [FloorRing α] (a b : α) : α :=
  |mathMod (a - b + 180) 360 - 180|

/-! Basic lemmas about `jsMod`, `mathMod` and `normalizeAngle`. -/

theorem mathMod_nonneg {α : Type} [LinearOrderedField α] [FloorRing α]
    (x : α) {m : α} (hm : 0 < m) : 0 ≤ mathMod x m := by
  have h := Int.floor_le (x / m)
  have : (⌊x / m⌋ : α) * m ≤ x / m * m := by
    exact mul_le_mul_of_nonneg_right h (le_of_lt hm)
  rw [div_mul_cancel₀ x (ne_of_gt hm)] at this
  unfold mathMod
  nlinarith

theorem mathMod_lt {α : Type} [LinearOrderedField α] [FloorRing α]
    (x : α) {m : α} (hm : 0 < m) : mathMod x m < m := by
  have h := Int.lt_floor_add_one (x / m)
  have : x / m * m < ((⌊x / m⌋ : α) + 1) * m := by
    exact mul_lt_mul_of_pos_right h hm
  rw [div_mul_cancel₀ x (ne_of_gt hm)] at this
  unfold mathMod
  nlinarith

/-- The value `mathMod` is invariant under shifting by integer multiples of the modulus. -/
theorem mathMod_add_int_mul {α : Type} [LinearOrderedField α] [FloorRing α]
    (x : α) {m : α} (hm : m ≠ 0) (k : ℤ) :
    mathMod (x + m * k) m = mathMod x m := by
  unfold mathMod
  have hdiv : (x + m * k) / m = x / m + k := by
    field_simp
    ring
  rw [hdiv, Int.floor_add_int]
  push_cast
  ring

/-- On `[0, m)`, `mathMod` is the identity. -/
theorem mathMod_eq_self {α : Type} [LinearOrderedField α] [FloorRing α]
    {x m : α} (hm : 0 < m) (h0 : 0 ≤ x) (h1 : x < m) : mathMod x m = x := by
  unfold mathMod
  have : ⌊x / m⌋ = 0 := by
    rw [Int.floor_eq_zero_iff]
    constructor
    · positivity
    · rw [div_lt_one hm] at *
      exact h1
  rw [this]
  push_cast
  ring

/-- Rewriting `mathMod` as a scaled fractional part. -/
theorem mathMod_eq_mul_fract {α : Type} [LinearOrderedField α] [FloorRing α]
    (x : α) {m : α} (hm : m ≠ 0) : mathMod x m = m * Int.fract (x / m) := by
  unfold mathMod Int.fract
  field_simp

/-- Function `normalizeAngle` agrees with the mathematical modulus by 360. -/
theorem normalizeAngle_eq_mathMod {α : Type} [LinearOrderedField α] [FloorRing α]
    (x : α) : normalizeAngle x = mathMod x 360 := by
  have h360 : (0 : α) < 360 := by norm_num
  have hmm : mathMod x 360 = 360 * Int.fract (x / 360) :=
    mathMod_eq_mul_fract x (by norm_num)
  unfold normalizeAngle jsMod jsTrunc
  by_cases hx : 0 ≤ x / 360
  · simp only [hx, if_true]
    have hnn : 0 ≤ x - 360 * (⌊x / 360⌋ : α) := by
      have := mathMod_nonneg x h360
      unfold mathMod at this
      linarith
    rw [if_neg (by linarith)]
    unfold mathMod
    ring
  · simp only [hx, if_false]
    by_cases hf : Int.fract (x / 360) = 0
    · have hfl : (⌊x / 360⌋ : α) = x / 360 := by
        have := Int.fract_add_floor (x / 360)
        unfold Int.fract at hf
        linarith [hf]
      have hcl : (⌈x / 360⌉ : α) = x / 360 := by
        have h1 : x / 360 = ((⌊x / 360⌋ : ℤ) : α) := hfl.symm
        rw [h1, Int.ceil_intCast]
      have hz : x - 360 * (⌈x / 360⌉ : α) = 0 := by
        rw [hcl]; field_simp
      rw [hz, if_neg (by norm_num), hmm, hf]
      ring
    · have hcl : (⌈x / 360⌉ : α) = x / 360 + 1 - Int.fract (x / 360) :=
        Int.ceil_eq_add_one_sub_fract hf
      have hfr0 : 0 < Int.fract (x / 360) :=
        lt_of_le_of_ne (Int.fract_nonneg _) (Ne.symm hf)
      have hfr1 : Int.fract (x / 360) < 1 := Int.fract_lt_one _
      have hval : x - 360 * (⌈x / 360⌉ : α) = 360 * Int.fract (x / 360) - 360 := by
        rw [hcl]; field_simp; ring
      rw [hval, if_pos (by nlinarith), hmm]
      ring

/-- The normalization invariant: `normalizeAngle` always lands in `[0, 360)`. -/
theorem normalizeAngle_mem_Ico {α : Type} [LinearOrderedField α] [FloorRing α]
    (x : α) : normalizeAngle x ∈ Set.Ico (0 : α) 360 := by
  rw [normalizeAngle_eq_mathMod]
  exact ⟨mathMod_nonneg x (by norm_num), mathMod_lt x (by norm_num)⟩

/-- For a nonnegative dividend, the JavaScript `%` agrees with `mathMod`. -/
theorem jsMod_eq_mathMod_of_nonneg {α : Type} [LinearOrderedField α] [FloorRing α]
    {a : α} (b : α) (ha : 0 ≤ a) (hb : 0 < b) : jsMod a b = mathMod a b := by
  unfold jsMod mathMod jsTrunc
  rw [if_pos (by positivity)]

/-! ## Euler-to-compass conversion and the deviceorientation handler -/

/-- Function `computeCompassHeadingFromEuler` from useDeviceOrientation.ts,
modelled over the reals (the unused `cB` binding of the source is omitted):
converts the Euler angles to radians, forms the rotation components
`rA = -cA*sG - sA*sB*cG` and `rB = -sA*sG + cA*sB*cG`, takes
`Math.atan(rA/rB)`, shifts by `π` if `rB < 0`, else by `2π` if `rA < 0`,
and converts back to degrees. -/
noncomputable def computeCompassHeadingFromEuler (alpha beta gamma : ℝ) : ℝ :=
  let alphaRad := alpha * (Real.pi / 180)
  let betaRad := beta * (Real.pi / 180)
  let gammaRad := gamma * (Real.pi / 180)
  let cA := Real.cos alphaRad
  let sA := Real.sin alphaRad
  let sB := Real.sin betaRad
  let cG := Real.cos gammaRad
  let sG := Real.sin gammaRad
  let rA := -cA * sG - sA * sB * cG
  let rB := -sA * sG + cA * sB * cG
  let compassHeading := Real.arctan (rA / rB)
  let shifted :=
    if rB < 0 then compassHeading + Real.pi
    else if rA < 0 then compassHeading + 2 * Real.pi
    else compassHeading
  shifted * 180 / Real.pi

/-- Modelled from the spec (§4.1, provider 3(b)): the standard
spherical-to-compass conversion, written from the spec's words: components
`rA = −cosα·sinγ − sinα·sinβ·cosγ` and `rB = −sinα·sinγ + cosα·sinβ·cosγ`
(angles in degrees, converted to radians), heading `atan(rA/rB)`, shifted by
`π` if `rB < 0`, shifted by `2π` if instead `rA < 0`, then in degrees. -/
noncomputable def specEulerHeading (alpha beta gamma : ℝ) : ℝ :=
  let a := alpha * (Real.pi / 180)
  let b := beta * (Real.pi / 180)
  let g := gamma * (Real.pi / 180)
  let rA := -(Real.cos a) * Real.sin g - Real.sin a * Real.sin b * Real.cos g
  let rB := -(Real.sin a) * Real.sin g + Real.cos a * Real.sin b * Real.cos g
  (Real.arctan (rA / rB) +
    (if rB < 0 then Real.pi else if rA < 0 then 2 * Real.pi else 0)) * (180 / Real.pi)

/-- The `rA` rotation component of the conversion, for stating range facts. -/
noncomputable def eulerRA (alpha beta gamma : ℝ) : ℝ :=
  -(Real.cos (alpha * (Real.pi / 180))) * Real.sin (gamma * (Real.pi / 180)) -
    Real.sin (alpha * (Real.pi / 180)) * Real.sin (beta * (Real.pi / 180)) *
      Real.cos (gamma * (Real.pi / 180))

/-- The `rB` rotation component of the conversion, for stating range facts. -/
noncomputable def eulerRB (alpha beta gamma : ℝ) : ℝ :=
  -(Real.sin (alpha * (Real.pi / 180))) * Real.sin (gamma * (Real.pi / 180)) +
    Real.cos (alpha * (Real.pi / 180)) * Real.sin (beta * (Real.pi / 180)) *
      Real.cos (gamma * (Real.pi / 180))

/-- One `deviceorientation` event as seen by `handleOrientation`:
optional Euler angles, the `absolute` flag, and the optional
vendor-corrected `webkitCompassHeading`. -/
structure OrientationEvent (α : Type) where
  alpha : Option α
  beta : Option α
  gamma : Option α
  absolute : Bool
  webkitCompassHeading : Option α

/-- The heading selected by `handleOrientation` (useDeviceOrientation.ts,
orientation-event fallback provider) before the screen-angle correction:
a numeric `webkitCompassHeading` wins; else, if the event is `absolute` with
all three Euler angles present, the Euler conversion (abstracted here as the
argument `euler`); else the naive fallback `(360 - alpha) % 360` when
`alpha` is numeric; else no heading. -/
def preScreenHeading {α : Type} [LinearOrderedField α] [FloorRing α]
    (euler : α → α → α → α) (e : OrientationEvent α) : Option α :=
  let h0 : Option α :=
    match e.webkitCompassHeading with
    | some w => some w
    | none =>
      if e.absolute = true ∧ e.alpha.isSome ∧ e.beta.isSome ∧ e.gamma.isSome then
        some (euler (e.alpha.getD 0) (e.beta.getD 0) (e.gamma.getD 0))
      else none
  match h0 with
  | some h => some h
  | none => e.alpha.map fun a => jsMod (360 - a) 360

/-- The heading `handleOrientation` passes to `updateHeading`: the selected
heading plus the screen angle, normalized (`normalizeAngle (heading +
getScreenAngle())` is applied on every branch of the handler). -/
def handlerHeading {α : Type} [LinearOrderedField α] [FloorRing α]
    (euler : α → α → α → α) (screenAngle : α) (e : OrientationEvent α) : Option α :=
  (preScreenHeading euler e).map fun h => normalizeAngle (h + screenAngle)

/-- Final heading of the absolute-orientation-sensor path in
useDeviceOrientation.ts, as a function of the yaw angle in degrees computed
by `atan2` (universally quantified in the theorems below):
`normalizeAngle (normalizeAngle (360 - yawDeg) + screenAngle)`. -/
def absoluteSensorHeading {α : Type} [LinearOrderedField α] [FloorRing α]
    (yawDeg screenAngle : α) : α :=
  normalizeAngle (normalizeAngle (360 - yawDeg) + screenAngle)

/-- Final heading of the tilt-compensated magnetometer path in
useDeviceOrientation.ts, as a function of the `atan2(-Yh, Xh)` result in
degrees: `normalizeAngle (normalizeAngle headingDeg + screenAngle)`. -/
def magnetometerHeading {α : Type} [LinearOrderedField α] [FloorRing α]
    (headingDeg screenAngle : α) : α :=
  normalizeAngle (normalizeAngle headingDeg + screenAngle)

/-! ## Heading Estimator claims -/

/-- C6: heading smoothing.  For every previous smoothed heading `p` and new
raw heading `h` (both in `[0,360)`, as produced by every provider path), the
emitted heading equals `normalize (p + 0.2 * delta)` with
`delta = ((h - p + 540) mod 360) - 180` (mathematical modulus, the shortest
angular delta); the first sample after (re)activation, having no previous
value, is emitted unsmoothed; and from previous 350° and raw 10° the emitted
heading is 354°, moving through 0°/360° (the short path), not through 180°. -/
theorem smoothing_uses_shortest_delta (p h : ℚ)
    (hp0 : 0 ≤ p) (hp1 : p < 360) (hh0 : 0 ≤ h) (hh1 : h < 360) :
    smoothedHeading (some p) h
        = normalizeAngle (p + (1 / 5 : ℚ) * (mathMod (h - p + 540) 360 - 180))
      ∧ smoothedHeading (none : Option ℚ) h = h
      ∧ smoothedHeading (some (350 : ℚ)) 10 = 354 := by
  refine ⟨?_, rfl, ?_⟩
  · have e1 : smoothedHeading (some p) h
        = normalizeAngle (p + (1 / 5 : ℚ) * shortestDelta p h) := rfl
    have e2 : shortestDelta p h = mathMod (h - p + 540) 360 - 180 := by
      unfold shortestDelta
      rw [jsMod_eq_mathMod_of_nonneg (360 : ℚ) (by linarith) (by norm_num)]
    rw [e1, e2]
  · have e1 : smoothedHeading (some (350 : ℚ)) 10
        = normalizeAngle (350 + (1 / 5 : ℚ) * shortestDelta 350 10) := rfl
    have e2 : shortestDelta (350 : ℚ) 10 = 20 := by
      unfold shortestDelta
      rw [show (10 : ℚ) - 350 + 540 = 200 by norm_num,
        jsMod_eq_mathMod_of_nonneg (360 : ℚ) (by norm_num) (by norm_num),
        mathMod_eq_self (by norm_num) (by norm_num) (by norm_num)]
      norm_num
    rw [e1, e2, show (350 : ℚ) + (1 / 5 : ℚ) * 20 = 354 by norm_num,
      normalizeAngle_eq_mathMod,
      mathMod_eq_self (by norm_num) (by norm_num) (by norm_num)]

/-- Witness for C6 at `p = 350`, `h = 10`. -/
theorem smoothing_uses_shortest_delta_witness :
    smoothedHeading (some (350 : ℚ)) 10
        = normalizeAngle (350 + (1 / 5 : ℚ) * (mathMod (10 - 350 + 540) 360 - 180)) :=
  (smoothing_uses_shortest_delta 350 10 (by norm_num) (by norm_num)
    (by norm_num) (by norm_num)).1

/-- C7: heading normalization invariant.  For every raw input (the yaw/atan2
degree results are universally quantified, covering negative values and
values above 360) and any smoothing state, the heading emitted by the
absolute-orientation path, the magnetometer path and the orientation-event
fallback path lies in `[0, 360)`. -/
theorem emitted_heading_in_Ico (prev : Option ℚ) (yawDeg rawDeg screenAngle : ℚ)
    (euler : ℚ → ℚ → ℚ → ℚ) (e : OrientationEvent ℚ) :
    smoothedHeading prev (absoluteSensorHeading yawDeg screenAngle) ∈ Set.Ico (0 : ℚ) 360
      ∧ smoothedHeading prev (magnetometerHeading rawDeg screenAngle) ∈ Set.Ico (0 : ℚ) 360
      ∧ ∀ h, handlerHeading euler screenAngle e = some h →
          smoothedHeading prev h ∈ Set.Ico (0 : ℚ) 360 := by
  have key : ∀ x : ℚ, smoothedHeading prev (normalizeAngle x) ∈ Set.Ico (0 : ℚ) 360 := by
    intro x
    cases prev with
    | none => exact normalizeAngle_mem_Ico x
    | some p => exact normalizeAngle_mem_Ico _
  refine ⟨key _, key _, ?_⟩
  intro h hh
  unfold handlerHeading at hh
  cases hph : preScreenHeading euler e with
  | none => rw [hph] at hh; simp at hh
  | some h0 =>
      rw [hph] at hh
      simp only [Option.map_some', Option.some.injEq] at hh
      rw [← hh]
      exact key _

/-- Witness for C7: concrete instantiation of all three paths, with the
fallback path evaluated on an event carrying only `alpha = 30`. -/
theorem emitted_heading_in_Ico_witness :
    smoothedHeading (some (10 : ℚ)) (absoluteSensorHeading (-45) 0) ∈ Set.Ico (0 : ℚ) 360
      ∧ smoothedHeading (some (10 : ℚ)) 330 ∈ Set.Ico (0 : ℚ) 360 := by
  have h := emitted_heading_in_Ico (some (10 : ℚ)) (-45) 400 0 (fun _ _ _ => 0)
    ⟨some 30, none, none, false, none⟩
  refine ⟨h.1, h.2.2 330 ?_⟩
  have e1 : handlerHeading (fun _ _ _ => (0 : ℚ)) 0 ⟨some 30, none, none, false, none⟩
      = some (normalizeAngle (jsMod (360 - 30) 360 + 0)) := rfl
  rw [e1, show (360 : ℚ) - 30 = 330 by norm_num,
    jsMod_eq_mathMod_of_nonneg (360 : ℚ) (by norm_num) (by norm_num),
    mathMod_eq_self (by norm_num) (by norm_num) (by norm_num),
    show (330 : ℚ) + 0 = 330 by norm_num,
    normalizeAngle_eq_mathMod,
    mathMod_eq_self (by norm_num) (by norm_num) (by norm_num)]

/-- C10: implicit smoothing step bound.  Whenever a previous smoothed heading
`p` exists (`p ∈ [0,360)`, the invariant of the stored smoothing state), the
newly emitted smoothed heading lies within 36° of `p` in circular
(shortest-arc) distance, for EVERY raw input heading `x` — every provider
path normalizes its raw heading (`normalizeAngle`) before handing it to
`updateHeading`, so the input to the smoother is `normalizeAngle x`. -/
theorem smoothing_step_within_36 (p x : ℚ) (hp0 : 0 ≤ p) (hp1 : p < 360) :
    circDist (smoothedHeading (some p) (normalizeAngle x)) p ≤ 36 := by
  have h360 : (0 : ℚ) < 360 := by norm_num
  have hhm := normalizeAngle_mem_Ico x
  rw [Set.mem_Ico] at hhm
  obtain ⟨hh0, hh1⟩ := hhm
  have hd : shortestDelta p (normalizeAngle x)
      = mathMod (normalizeAngle x - p + 540) 360 - 180 := by
    unfold shortestDelta
    rw [jsMod_eq_mathMod_of_nonneg (360 : ℚ) (by linarith) h360]
  have hd0 : -180 ≤ shortestDelta p (normalizeAngle x) := by
    rw [hd]
    have := mathMod_nonneg (normalizeAngle x - p + 540) h360
    linarith
  have hd1 : shortestDelta p (normalizeAngle x) < 180 := by
    rw [hd]
    have := mathMod_lt (normalizeAngle x - p + 540) h360
    linarith
  set d : ℚ := shortestDelta p (normalizeAngle x) with hddef
  have e1 : smoothedHeading (some p) (normalizeAngle x)
      = normalizeAngle (p + (1 / 5 : ℚ) * d) := rfl
  have hs : smoothedHeading (some p) (normalizeAngle x)
      = mathMod (p + (1 / 5 : ℚ) * d) 360 := by
    rw [e1, normalizeAngle_eq_mathMod]
  set K : ℤ := ⌊(p + (1 / 5 : ℚ) * d) / 360⌋ with hKdef
  have hsval : smoothedHeading (some p) (normalizeAngle x)
      = p + (1 / 5 : ℚ) * d - 360 * (K : ℚ) := by
    rw [hs]; unfold mathMod; rw [← hKdef]
  have harg : smoothedHeading (some p) (normalizeAngle x) - p + 180
      = ((1 / 5 : ℚ) * d + 180) + 360 * ((-K : ℤ) : ℚ) := by
    rw [hsval]; push_cast; ring
  have hmod : mathMod (smoothedHeading (some p) (normalizeAngle x) - p + 180) 360
      = (1 / 5 : ℚ) * d + 180 := by
    rw [harg, mathMod_add_int_mul _ (show (360 : ℚ) ≠ 0 by norm_num) (-K)]
    exact mathMod_eq_self h360 (by linarith) (by linarith)
  unfold circDist
  rw [hmod, abs_le]
  constructor <;> linarith

/-- Witness for C10 at `p = 0`, raw heading `x = 10`. -/
theorem smoothing_step_within_36_witness :
    circDist (smoothedHeading (some (0 : ℚ)) (normalizeAngle 10)) 0 ≤ 36 :=
  smoothing_step_within_36 0 10 (by norm_num) (by norm_num)

/-- An orientation event carrying only the vendor compass value 10°
(an iOS event with `webkitCompassHeading = 10`). -/
def webkitEvent : OrientationEvent ℚ :=
  { alpha := none, beta := none, gamma := none, absolute := false,
    webkitCompassHeading := some 10 }

/-- C8 evidence (code bug): the handler applies the screen-angle correction
on every branch, including the vendor branch.  With vendor compass value 10°
and screen angle 90°, the heading passed to smoothing is 100°, not the
vendor value 10° — contradicting the source's own comment that
`webkitCompassHeading` is already screen-corrected. -/
theorem webkit_heading_screen_corrected :
    handlerHeading (fun _ _ _ => 0) 90 webkitEvent = some 100
      ∧ (100 : ℚ) ≠ 10 := by
  constructor
  · have e1 : handlerHeading (fun _ _ _ => (0 : ℚ)) 90 webkitEvent
        = some (normalizeAngle (10 + 90)) := rfl
    rw [e1, show (10 : ℚ) + 90 = 100 by norm_num, normalizeAngle_eq_mathMod,
      mathMod_eq_self (by norm_num) (by norm_num) (by norm_num)]
  · norm_num

/-- Orientation event used in the C9 witness: absolute, Euler angles
`(0, 90, 0)`, no vendor compass value. -/
def eulerEvent : OrientationEvent ℝ :=
  { alpha := some 0, beta := some 90, gamma := some 0, absolute := true,
    webkitCompassHeading := none }

/-- C9: Euler-to-compass conversion.  For every orientation event reporting
an absolute reference frame with all three Euler angles present and no
vendor compass value, the heading selected before screen correction is
`computeCompassHeadingFromEuler`; that conversion equals the spec's formula
(`atan(rA/rB)`, shifted by `π` when `rB < 0`, by `2π` when instead `rA < 0`,
converted to degrees); and in the unshifted case (`rA, rB ≥ 0`) the
`atan(rA/rB)` result lies in `[0, π]`. -/
theorem euler_conversion_matches_spec (e : OrientationEvent ℝ) (a b g : ℝ)
    (hw : e.webkitCompassHeading = none) (habs : e.absolute = true)
    (ha : e.alpha = some a) (hb : e.beta = some b) (hg : e.gamma = some g) :
    preScreenHeading computeCompassHeadingFromEuler e
        = some (computeCompassHeadingFromEuler a b g)
      ∧ computeCompassHeadingFromEuler a b g = specEulerHeading a b g
      ∧ (0 ≤ eulerRA a b g → 0 ≤ eulerRB a b g →
          Real.arctan (eulerRA a b g / eulerRB a b g) ∈ Set.Icc 0 Real.pi) := by
  refine ⟨?_, ?_, ?_⟩
  · simp [preScreenHeading, hw, habs, ha, hb, hg]
  · simp only [computeCompassHeadingFromEuler, specEulerHeading]
    split_ifs <;> ring
  · intro h1 h2
    constructor
    · have := Real.arctan_strictMono.monotone (div_nonneg h1 h2)
      rwa [Real.arctan_zero] at this
    · have := Real.arctan_lt_pi_div_two (eulerRA a b g / eulerRB a b g)
      have hpi := Real.pi_pos
      linarith

/-- Witness for C9 at the event `eulerEvent` (Euler angles `(0, 90, 0)`). -/
theorem euler_conversion_matches_spec_witness :
    preScreenHeading computeCompassHeadingFromEuler eulerEvent
      = some (computeCompassHeadingFromEuler 0 90 0) :=
  (euler_conversion_matches_spec eulerEvent 0 90 0 rfl rfl rfl rfl rfl).1

/-! ## Geo Query Engine: data model and response mapping (nominatim.ts) -/

/-- The `EstablishmentType` union of nominatim.ts. -/
inductive EstablishmentType where
  | bar
  | wineCellar
  | nightclub
  | supermarket
  | restaurant
  | liquorStore
deriving DecidableEq, Repr

/-- The string literal of each `EstablishmentType` member. -/
def typeTag : EstablishmentType → String
  | .bar => "bar"
  | .wineCellar => "wine-cellar"
  | .nightclub => "nightclub"
  | .supermarket => "supermarket"
  | .restaurant => "restaurant"
  | .liquorStore => "liquor-store"

/-- Lookup in a string-keyed attribute map (a JavaScript object is modelled
as an association list; `none` models an absent property). -/
def tagGet (tags : List (String × String)) (k : String) : Option String :=
  (tags.find? (fun e => e.1 == k)).map (·.2)

/-- The `node`/`way`/`relation` discriminator of an Overpass element. -/
inductive OsmType where
  | node
  | way
  | relation
deriving DecidableEq, Repr

/-- String form of the discriminator, used in the venue identity
`"type-id"`. -/
def OsmType.tagName : OsmType → String
  | .node => "node"
  | .way => "way"
  | .relation => "relation"

/-- The `OverpassElement` interface of nominatim.ts. -/
structure OverpassElement where
  type : OsmType
  id : ℤ
  lat : Option ℚ
  lon : Option ℚ
  center : Option (ℚ × ℚ)
  tags : Option (List (String × String))

/-- The `Establishment` interface of nominatim.ts. -/
structure Establishment where
  id : String
  name : String
  type : EstablishmentType
  lat : ℚ
  lng : ℚ
  isOpen : Bool
  city : Option String
  tags : List (String × String)
deriving DecidableEq

/-- Function `mapOsmTagsToType` from nominatim.ts: the closed OSM-tag →
category table, checked in source order. -/
def mapOsmTagsToType (tags : List (String × String)) : Option EstablishmentType :=
  if tagGet tags "amenity" = some "bar" ∨ tagGet tags "amenity" = some "pub" then
    some .bar
  else if tagGet tags "amenity" = some "nightclub" then some .nightclub
  else if tagGet tags "shop" = some "wine" then some .wineCellar
  else if tagGet tags "shop" = some "alcohol" ∨ tagGet tags "shop" = some "beverages" then
    some .liquorStore
  else if tagGet tags "amenity" = some "restaurant" then some .restaurant
  else if tagGet tags "shop" = some "supermarket" ∨ tagGet tags "shop" = some "convenience" then
    some .supermarket
  else none

/-- Function `isEstablishmentOpen` from nominatim.ts: no `opening_hours`
tag (or a falsy one) means open; `24/7` means open; every other schedule
string is also treated as open (documented limitation). -/
def isEstablishmentOpen (tags : List (String × String)) : Bool :=
  match tagGet tags "opening_hours" with
  | none => true
  | some oh => if oh = "24/7" then true else true

/-- JavaScript truthiness of an optional number: absent, `0` and `NaN` are
falsy (`NaN` has no rational counterpart and is not modelled). -/
def jsTruthy (o : Option ℚ) : Bool :=
  match o with
  | none => false
  | some q => q != 0

/-- The element-to-establishment conversion inside `queryOverpass`
(nominatim.ts): elements without tags are dropped, elements whose tags do
not map to a category are dropped; coordinates come from the element's own
`lat`/`lon` when it is a node and both are truthy, else from `center`, and
an element with neither is dropped; the name falls back to
`"<type> sans nom"` when the `name` tag is absent or falsy. -/
def mapElement (element : OverpassElement) : Option Establishment :=
  match element.tags with
  | none => none
  | some tags =>
    match mapOsmTagsToType tags with
    | none => none
    | some ty =>
      let coords : Option (ℚ × ℚ) :=
        if element.type = OsmType.node ∧ jsTruthy element.lat = true
            ∧ jsTruthy element.lon = true then
          some (element.lat.getD 0, element.lon.getD 0)
        else
          match element.center with
          | some c => some c
          | none => none
      match coords with
      | none => none
      | some c =>
        some {
          id := element.type.tagName ++ "-" ++ toString element.id
          name :=
            match tagGet tags "name" with
            | some n => if n = "" then typeTag ty ++ " sans nom" else n
            | none => typeTag ty ++ " sans nom"
          type := ty
          lat := c.1
          lng := c.2
          isOpen := isEstablishmentOpen tags
          city := tagGet tags "addr:city"
          tags := tags }

/-- The full response mapping of `queryOverpass`: `.map` to
establishment-or-null followed by `.filter(est => est !== null)`. -/
def mapElements (elements : List OverpassElement) : List Establishment :=
  elements.filterMap mapElement

/-- A bar node on the equator: it carries its own coordinates
`lat = 0, lon = 2` and no centroid. -/
def equatorBarNode : OverpassElement :=
  { type := .node, id := 1, lat := some 0, lon := some 2, center := none,
    tags := some [("amenity", "bar")] }

/-- Counterexample to C5 as stated: `equatorBarNode` is a node whose own
`lat`/`lon` are present and whose tags map to `bar`, yet the code drops it —
the coordinate guard uses JavaScript truthiness, and `lat = 0` is falsy —
whereas the claim says a node's own lat/lon are used and only an element
with neither coordinate source is dropped. -/
theorem node_with_zero_lat_dropped :
    equatorBarNode.type = OsmType.node
      ∧ equatorBarNode.lat = some 0
      ∧ equatorBarNode.lon = some 2
      ∧ equatorBarNode.center = none
      ∧ Option.map mapOsmTagsToType equatorBarNode.tags
          = some (some EstablishmentType.bar)
      ∧ mapElement equatorBarNode = none :=
  ⟨rfl, rfl, rfl, rfl, rfl, rfl⟩

/-- C5 (amended): response mapping of `queryOverpass`.  An element without a
tag map is dropped; an element whose tags do not match the closed category
table is dropped; `amenity=pub` maps to `bar`; `shop=wine` maps to
`wine-cellar` (amenity tags are checked first); coordinates are taken from
the element's own lat/lon if it is a node and both are present and non-zero
(JavaScript truthiness), else from its computed centroid, and an element
with neither is dropped. -/
theorem response_mapping (e : OverpassElement) :
    (e.tags = none → mapElement e = none)
      ∧ (∀ tags, e.tags = some tags → mapOsmTagsToType tags = none →
          mapElement e = none)
      ∧ (∀ tags, tagGet tags "amenity" = some "pub" →
          mapOsmTagsToType tags = some .bar)
      ∧ (∀ tags, tagGet tags "amenity" = none → tagGet tags "shop" = some "wine" →
          mapOsmTagsToType tags = some .wineCellar)
      ∧ (∀ tags ty, e.tags = some tags → mapOsmTagsToType tags = some ty →
          e.type = OsmType.node → jsTruthy e.lat = true → jsTruthy e.lon = true →
          ∃ est, mapElement e = some est ∧ est.lat = e.lat.getD 0
            ∧ est.lng = e.lon.getD 0 ∧ est.type = ty)
      ∧ (∀ tags ty c, e.tags = some tags → mapOsmTagsToType tags = some ty →
          ¬(e.type = OsmType.node ∧ jsTruthy e.lat = true ∧ jsTruthy e.lon = true) →
          e.center = some c →
          ∃ est, mapElement e = some est ∧ est.lat = c.1 ∧ est.lng = c.2
            ∧ est.type = ty)
      ∧ (∀ tags ty, e.tags = some tags → mapOsmTagsToType tags = some ty →
          ¬(e.type = OsmType.node ∧ jsTruthy e.lat = true ∧ jsTruthy e.lon = true) →
          e.center = none → mapElement e = none) := by
  refine ⟨?_, ?_, ?_, ?_, ?_, ?_, ?_⟩
  · intro h
    simp only [mapElement, h]
  · intro tags h hmap
    simp only [mapElement, h, hmap]
  · intro tags hpub
    unfold mapOsmTagsToType
    rw [if_pos (Or.inr hpub)]
  · intro tags hamen hwine
    unfold mapOsmTagsToType
    rw [if_neg (by simp [hamen]), if_neg (by simp [hamen]), if_pos hwine]
  · intro tags ty h hmap hnode hlat hlon
    simp only [mapElement, h, hmap]
    rw [if_pos (show _ ∧ _ ∧ _ from ⟨hnode, hlat, hlon⟩)]
    exact ⟨_, rfl, rfl, rfl, rfl⟩
  · intro tags ty c h hmap hnot hc
    simp only [mapElement, h, hmap]
    rw [if_neg hnot, hc]
    exact ⟨_, rfl, rfl, rfl, rfl⟩
  · intro tags ty h hmap hnot hc
    simp only [mapElement, h, hmap]
    rw [if_neg hnot, hc]

/-- A typical bar node with non-zero coordinates, for the C5 witness. -/
def parisBarNode : OverpassElement :=
  { type := .node, id := 42, lat := some 48, lon := some 2, center := none,
    tags := some [("amenity", "bar")] }

/-- Witness for C5 (amended) on `parisBarNode`: its own coordinates are
used and the category is `bar`. -/
theorem response_mapping_witness :
    ∃ est, mapElement parisBarNode = some est ∧ est.lat = (48 : ℚ)
      ∧ est.lng = (2 : ℚ) ∧ est.type = EstablishmentType.bar := by
  have h := (response_mapping parisBarNode).2.2.2.2.1 [("amenity", "bar")]
    EstablishmentType.bar rfl rfl rfl rfl rfl
  simpa using h

/-! ## Geo Query Engine: cache, cache keys and in-flight deduplication -/

/-- Constant `CACHE_DURATION` of nominatim.ts: 5 minutes in milliseconds. -/
def CACHE_DURATION : ℕ := 5 * 60 * 1000

/-- The `searchMode` parameter of `queryOverpass`. -/
inductive SearchMode where
  | proximity
  | city
deriving DecidableEq

/-- JavaScript `Math.round`: round half toward positive infinity. -/
def jsRound (q : ℚ) : ℤ := ⌊q + 1 / 2⌋

/-- Insertion of a string into a sorted list, by the lexicographic order
JavaScript's default `Array.prototype.sort` uses. -/
def insertSorted (a : String) : List String → List String
  | [] => [a]
  | b :: t => if a ≤ b then a :: b :: t else b :: insertSorted a t

/-- Model of `types.sort()` on the category tag strings: lexicographic
sorting. -/
def sortStrings : List String → List String
  | [] => []
  | a :: t => insertSorted a (sortStrings t)

/-- Rendering of a number into the cache-key string.  The JavaScript
template renders the decimal form; any injective rendering of the rounded
rational carries the same information, so the exact rational is rendered. -/
def ratKey (q : ℚ) : String := toString q

/-- Function `getCacheKey` from nominatim.ts: city mode with a non-empty
city name keys on `city:<name>:<sorted types>`; otherwise the key is
`proximity:<lat rounded to 2 decimals>:<lng rounded>:<radius>:<sorted
types>` (JavaScript `searchMode === 'city' && city` is false for an absent
or empty city name). -/
def getCacheKey (lat lng radius : ℚ) (types : List EstablishmentType)
    (searchMode : SearchMode) (city : Option String) : String :=
  let typesStr := String.intercalate "," (sortStrings (types.map typeTag))
  let roundedLat : ℚ := (jsRound (lat * 100) : ℚ) / 100
  let roundedLng : ℚ := (jsRound (lng * 100) : ℚ) / 100
  let proximityKey := "proximity:" ++ ratKey roundedLat ++ ":" ++ ratKey roundedLng
    ++ ":" ++ ratKey radius ++ ":" ++ typesStr
  match searchMode, city with
  | SearchMode.city, some c => if c = "" then proximityKey else "city:" ++ c ++ ":" ++ typesStr
  | _, _ => proximityKey

/-- One entry of the `queryOverpass` cache: venue list plus creation
timestamp. -/
structure CacheEntry where
  data : List Establishment
  timestamp : ℕ
deriving DecidableEq

/-- The process-wide mutable state of the `queryOverpass` flow: the cache
map, the in-flight promise map (promises are modelled by operation ids),
a fresh-operation counter, and the number of network operations started. -/
structure EngineState where
  cache : List (String × CacheEntry)
  inFlight : List (String × ℕ)
  nextOp : ℕ
  fetchCount : ℕ
deriving DecidableEq

/-- Initial engine state: empty cache, nothing in flight. -/
def initialEngine : EngineState := ⟨[], [], 0, 0⟩

/-- Lookup in the cache map (`cache.get(key)`). -/
def lookupCache (c : List (String × CacheEntry)) (k : String) : Option CacheEntry :=
  (c.find? (fun e => e.1 == k)).map (·.2)

/-- Lookup in the in-flight map (`inFlightRequests.get(key)`). -/
def lookupInFlight (m : List (String × ℕ)) (k : String) : Option ℕ :=
  (m.find? (fun e => e.1 == k)).map (·.2)

/-- Overwriting insertion, modelling `Map.set`. -/
def cacheSet (c : List (String × CacheEntry)) (k : String) (v : CacheEntry) :
    List (String × CacheEntry) :=
  (k, v) :: c.filter (fun e => !(e.1 == k))

/-- Function `cleanExpiredCache` from nominatim.ts: drop every entry with
`now - timestamp > CACHE_DURATION`. -/
def cleanExpiredCache (c : List (String × CacheEntry)) (now : ℕ) :
    List (String × CacheEntry) :=
  c.filter (fun e => now - e.2.timestamp ≤ CACHE_DURATION)

/-- What one `queryOverpass` call observes synchronously: a fresh cache
hit, a subscription to an in-flight operation, or the start of a new
network operation. -/
inductive CallOutcome where
  | cached (data : List Establishment)
  | joined (op : ℕ)
  | started (op : ℕ)
deriving DecidableEq

/-- The miss path of `queryOverpass`: subscribe to an identical in-flight
request if one exists, else clean the expired cache entries, start a new
network operation and record it in the in-flight map. -/
def queryStepMiss (s : EngineState) (now : ℕ) (k : String) :
    CallOutcome × EngineState :=
  match lookupInFlight s.inFlight k with
  | some op => (.joined op, s)
  | none =>
    (.started s.nextOp,
      { cache := cleanExpiredCache s.cache now
        inFlight := (k, s.nextOp) :: s.inFlight
        nextOp := s.nextOp + 1
        fetchCount := s.fetchCount + 1 })

/-- The synchronous prefix of `queryOverpass` (nominatim.ts): return the
cached list when the entry under the key is younger than `CACHE_DURATION`,
else fall through to the miss path.  JavaScript executes this prefix
atomically (single-threaded cooperative scheduling). -/
def queryStep (s : EngineState) (now : ℕ) (k : String) :
    CallOutcome × EngineState :=
  match lookupCache s.cache k with
  | some entry =>
    if now - entry.timestamp < CACHE_DURATION then (.cached entry.data, s)
    else queryStepMiss s now k
  | none => queryStepMiss s now k

/-- Settlement of the network operation under key `k`: on success the venue
list is written to the cache with the completion timestamp; in both cases
the creator's `finally` removes the key from the in-flight map. -/
def settleStep (s : EngineState) (k : String)
    (outcome : Except String (List Establishment)) (now : ℕ) : EngineState :=
  { s with
    cache :=
      match outcome with
      | .ok d => cacheSet s.cache k ⟨d, now⟩
      | .error _ => s.cache
    inFlight := s.inFlight.filter (fun e => !(e.1 == k)) }

/-- Sequential application of several `queryOverpass` synchronous prefixes
under one cache key (the interleaving that N concurrent callers produce on
the single JavaScript thread). -/
def applyCalls (s : EngineState) (k : String) : List ℕ → List CallOutcome × EngineState
  | [] => ([], s)
  | t :: ts =>
    let r := queryStep s t k
    let rest := applyCalls r.2 k ts
    (r.1 :: rest.1, rest.2)

/-- No unexpired cache entry exists under `k` at time `t`. -/
def NoFreshEntry (s : EngineState) (k : String) (t : ℕ) : Prop :=
  ∀ e, lookupCache s.cache k = some e → ¬(t - e.timestamp < CACHE_DURATION)

/-- Inserting under `k` makes the entry visible to `lookupCache k`. -/
theorem lookupCache_cacheSet (c : List (String × CacheEntry)) (k : String)
    (v : CacheEntry) : lookupCache (cacheSet c k v) k = some v := by
  simp [lookupCache, cacheSet, List.find?_cons]

/-- Removing key `k` from a promise map makes `lookupInFlight k` miss. -/
theorem lookupInFlight_erase (l : List (String × ℕ)) (k : String) :
    lookupInFlight (l.filter (fun e => !(e.1 == k))) k = none := by
  induction l with
  | nil => rfl
  | cons a t ih =>
    by_cases h : a.1 = k
    · simpa [List.filter_cons, h] using ih
    · simp only [lookupInFlight] at ih ⊢
      simp [List.filter_cons, List.find?_cons, h, ih]

/-- C2: cache correctness of `queryOverpass`.  If a query settles
successfully at `t₁` and a second query whose parameters yield the identical
cache key runs at `t₂` with `t₂ - t₁ < CACHE_DURATION` (5 minutes), the
second call returns the cached venue list and leaves the state — in
particular the network-operation count — unchanged; moreover, in proximity
mode, parameters whose coordinates round to the same 2-decimal grid yield
identical keys. -/
theorem queryOverpass_cache_correctness
    (lat₁ lng₁ radius₁ lat₂ lng₂ radius₂ : ℚ)
    (types₁ types₂ : List EstablishmentType) (mode₁ mode₂ : SearchMode)
    (city₁ city₂ : Option String) (s : EngineState) (d : List Establishment)
    (t₁ t₂ : ℕ)
    (hkey : getCacheKey lat₂ lng₂ radius₂ types₂ mode₂ city₂
      = getCacheKey lat₁ lng₁ radius₁ types₁ mode₁ city₁)
    (htime : t₂ - t₁ < CACHE_DURATION) :
    queryStep (settleStep s (getCacheKey lat₁ lng₁ radius₁ types₁ mode₁ city₁)
          (Except.ok d) t₁) t₂ (getCacheKey lat₂ lng₂ radius₂ types₂ mode₂ city₂)
        = (CallOutcome.cached d,
            settleStep s (getCacheKey lat₁ lng₁ radius₁ types₁ mode₁ city₁)
              (Except.ok d) t₁)
      ∧ (queryStep (settleStep s (getCacheKey lat₁ lng₁ radius₁ types₁ mode₁ city₁)
            (Except.ok d) t₁) t₂
            (getCacheKey lat₂ lng₂ radius₂ types₂ mode₂ city₂)).2.fetchCount
          = (settleStep s (getCacheKey lat₁ lng₁ radius₁ types₁ mode₁ city₁)
              (Except.ok d) t₁).fetchCount
      ∧ (∀ la₁ lo₁ la₂ lo₂ : ℚ, ∀ r : ℚ, ∀ ty : List EstablishmentType,
          ∀ c₁ c₂ : Option String,
          jsRound (la₁ * 100) = jsRound (la₂ * 100) →
          jsRound (lo₁ * 100) = jsRound (lo₂ * 100) →
          getCacheKey la₁ lo₁ r ty SearchMode.proximity c₁
            = getCacheKey la₂ lo₂ r ty SearchMode.proximity c₂) := by
  have hlc : lookupCache
      (settleStep s (getCacheKey lat₁ lng₁ radius₁ types₁ mode₁ city₁)
        (Except.ok d) t₁).cache
      (getCacheKey lat₁ lng₁ radius₁ types₁ mode₁ city₁) = some ⟨d, t₁⟩ := by
    simp only [settleStep]
    exact lookupCache_cacheSet _ _ _
  have hmain : queryStep (settleStep s
        (getCacheKey lat₁ lng₁ radius₁ types₁ mode₁ city₁) (Except.ok d) t₁) t₂
        (getCacheKey lat₂ lng₂ radius₂ types₂ mode₂ city₂)
      = (CallOutcome.cached d,
          settleStep s (getCacheKey lat₁ lng₁ radius₁ types₁ mode₁ city₁)
            (Except.ok d) t₁) := by
    rw [hkey]
    simp only [queryStep, hlc, if_pos htime]
  refine ⟨hmain, by rw [hmain], ?_⟩
  intro la₁ lo₁ la₂ lo₂ r ty c₁ c₂ hla hlo
  simp only [getCacheKey]
  rw [hla, hlo]

/-- Witness for C2 on concrete parameters `(1, 2, 5, {bar})`: the second
call, issued at `t₂ = 0` after the first settled at `t₁ = 0`, hits the
cache. -/
theorem queryOverpass_cache_correctness_witness :
    queryStep (settleStep initialEngine
          (getCacheKey 1 2 5 [EstablishmentType.bar] SearchMode.proximity none)
          (Except.ok []) 0) 0
        (getCacheKey 1 2 5 [EstablishmentType.bar] SearchMode.proximity none)
      = (CallOutcome.cached [],
          settleStep initialEngine
            (getCacheKey 1 2 5 [EstablishmentType.bar] SearchMode.proximity none)
            (Except.ok []) 0) :=
  (queryOverpass_cache_correctness 1 2 5 1 2 5 [.bar] [.bar] .proximity .proximity
    none none initialEngine [] 0 0 rfl (by norm_num [CACHE_DURATION])).1

/-- C3: in-flight deduplication of `queryOverpass`.  When no unexpired
cache entry exists: the first call under a key starts exactly one network
operation and records it in the in-flight map; every further call while
that operation is pending joins the same operation without starting a new
one (so all N callers await one network request and receive its result);
and settlement — resolution or rejection alike, regardless of the number of
subscribers — removes the pending record from the in-flight map. -/
theorem queryOverpass_inflight_dedup (s : EngineState) (k : String) :
    (∀ t₀, NoFreshEntry s k t₀ → lookupInFlight s.inFlight k = none →
        (queryStep s t₀ k).1 = CallOutcome.started s.nextOp
          ∧ (queryStep s t₀ k).2.fetchCount = s.fetchCount + 1
          ∧ lookupInFlight (queryStep s t₀ k).2.inFlight k = some s.nextOp)
      ∧ (∀ t op, lookupInFlight s.inFlight k = some op → NoFreshEntry s k t →
          queryStep s t k = (CallOutcome.joined op, s))
      ∧ (∀ ts op, lookupInFlight s.inFlight k = some op →
          (∀ t ∈ ts, NoFreshEntry s k t) →
          applyCalls s k ts = (ts.map fun _ => CallOutcome.joined op, s))
      ∧ (∀ outcome now,
          lookupInFlight (settleStep s k outcome now).inFlight k = none) := by
  have hjoin : ∀ t op, lookupInFlight s.inFlight k = some op → NoFreshEntry s k t →
      queryStep s t k = (CallOutcome.joined op, s) := by
    intro t op hin hnf
    cases hc : lookupCache s.cache k with
    | none => simp only [queryStep, hc, queryStepMiss, hin]
    | some e =>
      simp only [queryStep, hc]
      rw [if_neg (hnf e hc)]
      simp only [queryStepMiss, hin]
  refine ⟨?_, hjoin, ?_, ?_⟩
  · intro t₀ hnf hnone
    have hred : queryStep s t₀ k = queryStepMiss s t₀ k := by
      cases hc : lookupCache s.cache k with
      | none => simp only [queryStep, hc]
      | some e =>
        simp only [queryStep, hc]
        rw [if_neg (hnf e hc)]
    rw [hred]
    refine ⟨?_, ?_, ?_⟩
    · simp [queryStepMiss, hnone]
    · simp [queryStepMiss, hnone]
    · simp only [queryStepMiss, hnone]
      simp [lookupInFlight, List.find?_cons]
  · intro ts op hin
    induction ts with
    | nil => intro _; rfl
    | cons t ts ih =>
      intro hall
      have h1 := hjoin t op hin (hall t (List.mem_cons_self t ts))
      simp only [applyCalls, h1]
      rw [ih fun x hx => hall x (List.mem_cons_of_mem t hx)]
      simp
  · intro outcome now
    simpa only [settleStep] using lookupInFlight_erase s.inFlight k

/-- Witness for C3 from the initial state under key `"k"`: the first call
starts operation 0, and a rejected settlement still clears the in-flight
map. -/
theorem queryOverpass_inflight_dedup_witness :
    (queryStep initialEngine 0 "k").1 = CallOutcome.started 0
      ∧ lookupInFlight (settleStep initialEngine "k"
          (Except.error "boom") 0).inFlight "k" = none := by
  have h := queryOverpass_inflight_dedup initialEngine "k"
  refine ⟨(h.1 0 ?_ rfl).1, h.2.2.2 (Except.error "boom") 0⟩
  intro e he
  simp [lookupCache, initialEngine] at he

/-! ## Geo Query Engine: multi-endpoint failover (fetchWithFallback) -/

/-- Constant `OVERPASS_INSTANCES` of nominatim.ts. -/
def OVERPASS_INSTANCES : List String :=
  ["https://overpass-api.de/api/interpreter",
   "https://overpass.private.coffee/api/interpreter",
   "https://overpass.osm.ch/api/interpreter"]

/-- Default `BACKOFF_BASE_MS` of nominatim.ts (`VITE_OVERPASS_429_BACKOFF_BASE_MS`,
default 800). -/
def BACKOFF_BASE_MS : ℕ := 800

/-- The `OverpassResponse` envelope of nominatim.ts (the mapping reads only
`elements`; the metadata fields are carried along). -/
structure OverpassResponse where
  version : ℚ
  generator : String
  elements : List OverpassElement

/-- What one physical fetch attempt observes: an ok response, a non-ok HTTP
status, or a network-level exception.  The network is environment input, so
a run of `fetchWithFallback` is parameterized by the outcome of each
attempt. -/
inductive AttemptOutcome where
  | ok (resp : OverpassResponse)
  | httpError (status : ℕ)
  | netError (msg : String)

/-- The errors `fetchWithFallback` constructs. -/
inductive OverpassError where
  | tooManyRequests (endpoint : String)
  | apiError (status : ℕ)
  | network (msg : String)
  | allInstancesFailed
deriving DecidableEq

/-- Record of one physical attempt: the endpoint index targeted and the
backoff slept after its failure (`none` when no sleep happened). -/
structure AttemptRecord where
  endpoint : ℕ
  backoffMs : Option ℕ
deriving DecidableEq, Inhabited

/-- The error a failed attempt at endpoint index `idx` leaves in
`lastError`. -/
def errOfOutcome (o : AttemptOutcome) (idx : ℕ) : OverpassError :=
  match o with
  | .ok _ => .allInstancesFailed
  | .httpError status =>
    if status = 429 then .tooManyRequests (OVERPASS_INSTANCES.getD idx "")
    else .apiError status
  | .netError m => .network m

/-- The retry loop of `fetchWithFallback` (nominatim.ts).  `outcome k` is
what the `k`-th physical attempt observes; `jit429 k` and `jitNet k` are
the random jitters of the 429 backoff (`Math.random()*250`) and of the
network-error backoff (`Math.random()*200`); `fuel` is the remaining
attempt budget, `attempt` the 0-based attempt counter of the `for` loop,
`idx` the shared endpoint cursor.  On a 429 the loop sleeps
`BACKOFF_BASE_MS * 2 ^ min 4 attempt + jitter` and advances the cursor; on
another status it advances the cursor without sleeping; on a network error
it sleeps a fixed base backoff and advances the cursor.  Returns the final
result together with the trace of attempt records. -/
def fetchGo (outcome : ℕ → AttemptOutcome) (jit429 jitNet : ℕ → ℕ) :
    ℕ → ℕ → ℕ → Option OverpassError →
      Except OverpassError OverpassResponse × List AttemptRecord
  | 0, _, _, lastError => (.error (lastError.getD .allInstancesFailed), [])
  | fuel + 1, attempt, idx, _ =>
    match outcome attempt with
    | .ok r => (.ok r, [⟨idx, none⟩])
    | .httpError status =>
      if status = 429 then
        let backoff := BACKOFF_BASE_MS * 2 ^ min 4 attempt + jit429 attempt
        let rest := fetchGo outcome jit429 jitNet fuel (attempt + 1)
          ((idx + 1) % OVERPASS_INSTANCES.length)
          (some (.tooManyRequests (OVERPASS_INSTANCES.getD idx "")))
        (rest.1, ⟨idx, some backoff⟩ :: rest.2)
      else
        let rest := fetchGo outcome jit429 jitNet fuel (attempt + 1)
          ((idx + 1) % OVERPASS_INSTANCES.length) (some (.apiError status))
        (rest.1, ⟨idx, none⟩ :: rest.2)
    | .netError m =>
      let backoff := BACKOFF_BASE_MS + jitNet attempt
      let rest := fetchGo outcome jit429 jitNet fuel (attempt + 1)
        ((idx + 1) % OVERPASS_INSTANCES.length) (some (.network m))
      (rest.1, ⟨idx, some backoff⟩ :: rest.2)

/-- Function `fetchWithFallback` from nominatim.ts:
`maxTries = OVERPASS_INSTANCES.length * 2` attempts starting from the
shared cursor position, throwing the last observed error on exhaustion. -/
def fetchWithFallback (outcome : ℕ → AttemptOutcome) (jit429 jitNet : ℕ → ℕ)
    (startIdx : ℕ) : Except OverpassError OverpassResponse × List AttemptRecord :=
  fetchGo outcome jit429 jitNet (OVERPASS_INSTANCES.length * 2) 0 startIdx none

theorem OVERPASS_INSTANCES_length : OVERPASS_INSTANCES.length = 3 := rfl

/-- Generalized induction lemma for `fetchGo` when every remaining attempt
fails: the trace has one record per attempt, the cursor advances by one
(mod 3) per attempt, a 429 attempt sleeps exactly
`BACKOFF_BASE_MS * 2 ^ min 4 attempt + jit429 attempt`, and the final
result is the error of the last attempt. -/
theorem fetchGo_all_fail (outcome : ℕ → AttemptOutcome) (jit429 jitNet : ℕ → ℕ)
    (fuel : ℕ) :
    ∀ attempt idx : ℕ, ∀ lastErr : Option OverpassError, idx < 3 →
    (∀ n, attempt ≤ n → n < attempt + (fuel + 1) → ∀ r, outcome n ≠ .ok r) →
    (fetchGo outcome jit429 jitNet (fuel + 1) attempt idx lastErr).2.length = fuel + 1
      ∧ (∀ m, m ≤ fuel →
          ((fetchGo outcome jit429 jitNet (fuel + 1) attempt idx lastErr).2.getD m
            default).endpoint = (idx + m) % 3)
      ∧ (∀ m, m ≤ fuel → outcome (attempt + m) = .httpError 429 →
          ((fetchGo outcome jit429 jitNet (fuel + 1) attempt idx lastErr).2.getD m
            default).backoffMs
            = some (BACKOFF_BASE_MS * 2 ^ min 4 (attempt + m) + jit429 (attempt + m)))
      ∧ (fetchGo outcome jit429 jitNet (fuel + 1) attempt idx lastErr).1
          = .error (errOfOutcome (outcome (attempt + fuel)) ((idx + fuel) % 3)) := by
  induction fuel with
  | zero =>
    intro attempt idx lastErr hidx hfail
    have hid : idx % 3 = idx := Nat.mod_eq_of_lt hidx
    cases ho : outcome attempt with
    | ok r => exact absurd ho (by have := hfail attempt le_rfl (by omega) r; simp [this])
    | httpError status =>
      by_cases h429 : status = 429
      · subst h429
        simp only [fetchGo, ho, if_pos rfl]
        refine ⟨rfl, ?_, ?_, ?_⟩
        · intro m hm
          interval_cases m
          simp [hid]
        · intro m hm _
          interval_cases m
          simp
        · simp [errOfOutcome, ho, hid]
      · simp only [fetchGo, ho, if_neg h429]
        refine ⟨rfl, ?_, ?_, ?_⟩
        · intro m hm
          interval_cases m
          simp [hid]
        · intro m hm habs
          interval_cases m
          rw [Nat.add_zero, ho] at habs
          cases habs
          exact absurd rfl h429
        · simp [errOfOutcome, ho, if_neg h429, hid]
    | netError msg =>
      simp only [fetchGo, ho]
      refine ⟨rfl, ?_, ?_, ?_⟩
      · intro m hm
        interval_cases m
        simp [hid]
      · intro m hm habs
        interval_cases m
        rw [Nat.add_zero, ho] at habs
        cases habs
      · simp [errOfOutcome, ho, hid]
  | succ fuel ih =>
    intro attempt idx lastErr hidx hfail
    have hid : idx % 3 = idx := Nat.mod_eq_of_lt hidx
    have hidx' : (idx + 1) % OVERPASS_INSTANCES.length < 3 := by
      rw [OVERPASS_INSTANCES_length]
      exact Nat.mod_lt _ (by norm_num)
    have hfail' : ∀ n, attempt + 1 ≤ n → n < (attempt + 1) + (fuel + 1) →
        ∀ r, outcome n ≠ .ok r := by
      intro n h1 h2 r
      exact hfail n (by omega) (by omega) r
    have hmod : ∀ m : ℕ, ((idx + 1) % OVERPASS_INSTANCES.length + m) % 3
        = (idx + (m + 1)) % 3 := by
      intro m
      rw [OVERPASS_INSTANCES_length, Nat.mod_add_mod]
      congr 1
      omega
    cases ho : outcome attempt with
    | ok r => exact absurd ho (by have := hfail attempt le_rfl (by omega) r; simp [this])
    | httpError status =>
      by_cases h429 : status = 429
      · subst h429
        obtain ⟨ihlen, ihep, ihbo, ihres⟩ := ih (attempt + 1)
          ((idx + 1) % OVERPASS_INSTANCES.length)
          (some (.tooManyRequests (OVERPASS_INSTANCES.getD idx ""))) hidx' hfail'
        have hstep : fetchGo outcome jit429 jitNet (fuel + 1 + 1) attempt idx lastErr
            = ((fetchGo outcome jit429 jitNet (fuel + 1) (attempt + 1)
                  ((idx + 1) % OVERPASS_INSTANCES.length)
                  (some (.tooManyRequests (OVERPASS_INSTANCES.getD idx "")))).1,
                ⟨idx, some (BACKOFF_BASE_MS * 2 ^ min 4 attempt + jit429 attempt)⟩ ::
                (fetchGo outcome jit429 jitNet (fuel + 1) (attempt + 1)
                  ((idx + 1) % OVERPASS_INSTANCES.length)
                  (some (.tooManyRequests (OVERPASS_INSTANCES.getD idx "")))).2) := by
          simp only [fetchGo, ho, eq_self_iff_true, if_true]
        rw [hstep]
        refine ⟨by simp only [List.length_cons, ihlen], ?_, ?_, ?_⟩
        · intro m hm
          cases m with
          | zero => simp [hid]
          | succ m' =>
            simp only [List.getD_cons_succ]
            rw [ihep m' (by omega), hmod m']
        · intro m hm hout
          cases m with
          | zero => simp
          | succ m' =>
            simp only [List.getD_cons_succ]
            have harith : attempt + (m' + 1) = (attempt + 1) + m' := by omega
            rw [harith] at hout ⊢
            exact ihbo m' (by omega) hout
        · rw [show ((fetchGo outcome jit429 jitNet (fuel + 1) (attempt + 1)
              ((idx + 1) % OVERPASS_INSTANCES.length)
              (some (.tooManyRequests (OVERPASS_INSTANCES.getD idx "")))).1,
              (⟨idx, some (BACKOFF_BASE_MS * 2 ^ min 4 attempt + jit429 attempt)⟩
                : AttemptRecord) ::
              (fetchGo outcome jit429 jitNet (fuel + 1) (attempt + 1)
                ((idx + 1) % OVERPASS_INSTANCES.length)
                (some (.tooManyRequests (OVERPASS_INSTANCES.getD idx "")))).2).1
            = (fetchGo outcome jit429 jitNet (fuel + 1) (attempt + 1)
                ((idx + 1) % OVERPASS_INSTANCES.length)
                (some (.tooManyRequests (OVERPASS_INSTANCES.getD idx "")))).1 from rfl,
            ihres]
          rw [show (attempt + 1) + fuel = attempt + (fuel + 1) from by omega, hmod fuel]
      · obtain ⟨ihlen, ihep, ihbo, ihres⟩ := ih (attempt + 1)
          ((idx + 1) % OVERPASS_INSTANCES.length) (some (.apiError status)) hidx' hfail'
        have hstep : fetchGo outcome jit429 jitNet (fuel + 1 + 1) attempt idx lastErr
            = ((fetchGo outcome jit429 jitNet (fuel + 1) (attempt + 1)
                  ((idx + 1) % OVERPASS_INSTANCES.length) (some (.apiError status))).1,
                ⟨idx, none⟩ ::
                (fetchGo outcome jit429 jitNet (fuel + 1) (attempt + 1)
                  ((idx + 1) % OVERPASS_INSTANCES.length) (some (.apiError status))).2) := by
          simp only [fetchGo, ho, if_neg h429]
        rw [hstep]
        refine ⟨by simp only [List.length_cons, ihlen], ?_, ?_, ?_⟩
        · intro m hm
          cases m with
          | zero => simp [hid]
          | succ m' =>
            simp only [List.getD_cons_succ]
            rw [ihep m' (by omega), hmod m']
        · intro m hm hout
          cases m with
          | zero =>
            rw [Nat.add_zero, ho] at hout
            cases hout
            exact absurd rfl h429
          | succ m' =>
            simp only [List.getD_cons_succ]
            have harith : attempt + (m' + 1) = (attempt + 1) + m' := by omega
            rw [harith] at hout ⊢
            exact ihbo m' (by omega) hout
        · rw [show ((fetchGo outcome jit429 jitNet (fuel + 1) (attempt + 1)
              ((idx + 1) % OVERPASS_INSTANCES.length) (some (.apiError status))).1,
              (⟨idx, none⟩ : AttemptRecord) ::
              (fetchGo outcome jit429 jitNet (fuel + 1) (attempt + 1)
                ((idx + 1) % OVERPASS_INSTANCES.length) (some (.apiError status))).2).1
            = (fetchGo outcome jit429 jitNet (fuel + 1) (attempt + 1)
                ((idx + 1) % OVERPASS_INSTANCES.length) (some (.apiError status))).1
            from rfl, ihres]
          rw [show (attempt + 1) + fuel = attempt + (fuel + 1) from by omega, hmod fuel]
    | netError msg =>
      obtain ⟨ihlen, ihep, ihbo, ihres⟩ := ih (attempt + 1)
        ((idx + 1) % OVERPASS_INSTANCES.length) (some (.network msg)) hidx' hfail'
      have hstep : fetchGo outcome jit429 jitNet (fuel + 1 + 1) attempt idx lastErr
          = ((fetchGo outcome jit429 jitNet (fuel + 1) (attempt + 1)
                ((idx + 1) % OVERPASS_INSTANCES.length) (some (.network msg))).1,
              ⟨idx, some (BACKOFF_BASE_MS + jitNet attempt)⟩ ::
              (fetchGo outcome jit429 jitNet (fuel + 1) (attempt + 1)
                ((idx + 1) % OVERPASS_INSTANCES.length) (some (.network msg))).2) := by
        simp only [fetchGo, ho]
      rw [hstep]
      refine ⟨by simp only [List.length_cons, ihlen], ?_, ?_, ?_⟩
      · intro m hm
        cases m with
        | zero => simp [hid]
        | succ m' =>
          simp only [List.getD_cons_succ]
          rw [ihep m' (by omega), hmod m']
      · intro m hm hout
        cases m with
        | zero =>
          rw [Nat.add_zero, ho] at hout
          cases hout
        | succ m' =>
          simp only [List.getD_cons_succ]
          have harith : attempt + (m' + 1) = (attempt + 1) + m' := by omega
          rw [harith] at hout ⊢
          exact ihbo m' (by omega) hout
      · rw [show ((fetchGo outcome jit429 jitNet (fuel + 1) (attempt + 1)
            ((idx + 1) % OVERPASS_INSTANCES.length) (some (.network msg))).1,
            (⟨idx, some (BACKOFF_BASE_MS + jitNet attempt)⟩ : AttemptRecord) ::
            (fetchGo outcome jit429 jitNet (fuel + 1) (attempt + 1)
              ((idx + 1) % OVERPASS_INSTANCES.length) (some (.network msg))).2).1
          = (fetchGo outcome jit429 jitNet (fuel + 1) (attempt + 1)
              ((idx + 1) % OVERPASS_INSTANCES.length) (some (.network msg))).1
          from rfl, ihres]
        rw [show (attempt + 1) + fuel = attempt + (fuel + 1) from by omega, hmod fuel]

/-- C4: multi-endpoint failover of `fetchWithFallback`.  Starting from the
shared cursor position `startIdx`, when every attempt fails: exactly
`2 × OVERPASS_INSTANCES.length = 6` attempts are made; the `m`-th attempt
targets endpoint `(startIdx + m) mod 3`, i.e. the cursor advances to the
next endpoint before each retry; an attempt answered with status 429 sleeps
exactly `BACKOFF_BASE_MS * 2 ^ min(attempt, 4)` plus a random jitter in
`[0, 250)` before its retry; and the run stops, raising the error of the
last attempt. -/
theorem fetchWithFallback_failover (outcome : ℕ → AttemptOutcome)
    (jit429 jitNet : ℕ → ℕ) (startIdx : ℕ)
    (hidx : startIdx < OVERPASS_INSTANCES.length)
    (hjit : ∀ n, jit429 n < 250)
    (hfail : ∀ n, n < OVERPASS_INSTANCES.length * 2 →
      ∀ r, outcome n ≠ AttemptOutcome.ok r) :
    (fetchWithFallback outcome jit429 jitNet startIdx).2.length
        = OVERPASS_INSTANCES.length * 2
      ∧ (∀ m, m < OVERPASS_INSTANCES.length * 2 →
          ((fetchWithFallback outcome jit429 jitNet startIdx).2.getD m
            default).endpoint = (startIdx + m) % OVERPASS_INSTANCES.length)
      ∧ (∀ m, m < OVERPASS_INSTANCES.length * 2 →
          outcome m = AttemptOutcome.httpError 429 →
          ∃ j, j < 250 ∧
            ((fetchWithFallback outcome jit429 jitNet startIdx).2.getD m
              default).backoffMs = some (BACKOFF_BASE_MS * 2 ^ min 4 m + j))
      ∧ (fetchWithFallback outcome jit429 jitNet startIdx).1
          = .error (errOfOutcome (outcome 5)
              ((startIdx + 5) % OVERPASS_INSTANCES.length)) := by
  have h3 : OVERPASS_INSTANCES.length = 3 := rfl
  have hidx3 : startIdx < 3 := by rw [h3] at hidx; exact hidx
  have hfail6 : ∀ n, 0 ≤ n → n < 0 + (5 + 1) → ∀ r, outcome n ≠ .ok r := by
    intro n _ hn r
    exact hfail n (by omega) r
  obtain ⟨hlen, hep, hbo, hres⟩ :=
    fetchGo_all_fail outcome jit429 jitNet 5 0 startIdx none hidx3 hfail6
  have hunfold : fetchWithFallback outcome jit429 jitNet startIdx
      = fetchGo outcome jit429 jitNet (5 + 1) 0 startIdx none := rfl
  refine ⟨?_, ?_, ?_, ?_⟩
  · rw [hunfold, hlen, h3]
  · intro m hm
    rw [hunfold, h3, hep m (by omega)]
  · intro m hm hout
    refine ⟨jit429 m, hjit m, ?_⟩
    have := hbo m (by omega) (by rw [Nat.zero_add]; exact hout)
    rw [Nat.zero_add] at this
    rw [hunfold, this]
  · rw [hunfold, hres, h3]

/-- Witness for C4: every attempt answers 429 (zero jitter, cursor starting
at endpoint 0) — the run raises the too-many-requests error of the last
attempt, made against endpoint `(0 + 5) % 3`. -/
theorem fetchWithFallback_failover_witness :
    (fetchWithFallback (fun _ => AttemptOutcome.httpError 429)
        (fun _ => 0) (fun _ => 0) 0).1
      = Except.error (errOfOutcome (AttemptOutcome.httpError 429)
          ((0 + 5) % OVERPASS_INSTANCES.length)) :=
  (fetchWithFallback_failover (fun _ => AttemptOutcome.httpError 429)
    (fun _ => 0) (fun _ => 0) 0
    (by rw [OVERPASS_INSTANCES_length]; norm_num)
    (fun _ => by norm_num)
    (fun n _ r h => nomatch h)).2.2.2

/-! ## Geo Query Engine: process-wide rate limiter (waitForRateLimit)

The limiter state is global.  `enqueueRateLimitedSlot` chains every
`waitForRateLimit` run on one promise chain, so runs execute strictly one
at a time in arrival order; a trace of calls is therefore modelled as a
list processed sequentially.  Each run reads `Date.now()` four times
(entry, sliding-window cutoff, wait computation, granted slot); the clock
values and the two random jitters are environment input, recorded in a
`RateLimitCall` and constrained by `ValidCall`, which encodes the sleep
semantics: after `await sleep(ms)` at least `ms` milliseconds have
passed. -/

/-- Default `MIN_INTERVAL_MS` of nominatim.ts (2000 ms between requests). -/
def MIN_INTERVAL_MS : ℤ := 2000

/-- Default `WINDOW_MS` of nominatim.ts (10000 ms sliding window). -/
def WINDOW_MS : ℤ := 10000

/-- Default `MAX_REQS_PER_WINDOW` of nominatim.ts (3 per window). -/
def MAX_REQS_PER_WINDOW : ℕ := 3

/-- The limiter's mutable globals: `lastRequestTs` and `recentRequests`. -/
structure RateLimiterState where
  lastRequestTs : ℤ
  recentRequests : List ℤ

/-- Initial limiter state (`lastRequestTs = 0`, empty window). -/
def initialRateLimiter : RateLimiterState := ⟨0, []⟩

/-- Environment observations of one `waitForRateLimit` run: `n1` is
`Date.now()` at entry, `n2` the `Date.now()` of the cutoff computation
(after the optional min-interval sleep), `n3` the `Date.now()` inside the
window-wait computation, `ts` the granted-slot timestamp, and `j1`, `j2`
the two `Math.floor(Math.random() * 150)` jitters. -/
structure RateLimitCall where
  n1 : ℤ
  n2 : ℤ
  n3 : ℤ
  ts : ℤ
  j1 : ℤ
  j2 : ℤ

/-- The sliding-window pruning of `waitForRateLimit`: shift entries while
the head is older than `cutoff = n2 - WINDOW_MS`. -/
def prunedRequests (s : RateLimiterState) (c : RateLimitCall) : List ℤ :=
  s.recentRequests.dropWhile (fun t => t < c.n2 - WINDOW_MS)

/-- Clock/sleep semantics of one `waitForRateLimit` run against state `s`:
the clock is monotone; jitters lie in `[0, 150)`; if less than
`MIN_INTERVAL_MS` elapsed since `lastRequestTs`, the run sleeps the
remainder plus `j1` before `n2` is read; if the pruned window still holds
`MAX_REQS_PER_WINDOW` entries, the run sleeps
`max (WINDOW_MS - (n3 - oldest) + j2) 0` before the slot timestamp `ts` is
read. -/
def ValidCall (s : RateLimiterState) (c : RateLimitCall) : Prop :=
  s.lastRequestTs ≤ c.n1
    ∧ 0 ≤ c.j1 ∧ c.j1 < 150 ∧ 0 ≤ c.j2 ∧ c.j2 < 150
    ∧ (if c.n1 - s.lastRequestTs < MIN_INTERVAL_MS
        then c.n1 + (MIN_INTERVAL_MS - (c.n1 - s.lastRequestTs)) + c.j1 ≤ c.n2
        else c.n1 ≤ c.n2)
    ∧ c.n2 ≤ c.n3
    ∧ (if MAX_REQS_PER_WINDOW ≤ (prunedRequests s c).length
        then c.n3 + max (WINDOW_MS - (c.n3 - (prunedRequests s c).headI) + c.j2) 0
          ≤ c.ts
        else c.n3 ≤ c.ts)

/-- State update of one `waitForRateLimit` run: the pruned window plus the
new granted timestamp, which also becomes `lastRequestTs`. -/
def rateLimitStep (s : RateLimiterState) (c : RateLimitCall) : RateLimiterState :=
  { lastRequestTs := c.ts, recentRequests := prunedRequests s c ++ [c.ts] }

/-- A serialized sequence of `waitForRateLimit` runs, each valid against
the state the previous one left. -/
def ValidTrace : RateLimiterState → List RateLimitCall → Prop
  | _, [] => True
  | s, c :: cs => ValidCall s c ∧ ValidTrace (rateLimitStep s c) cs

/-- The granted-slot timestamps of a trace. -/
def grants (cs : List RateLimitCall) : List ℤ := cs.map (·.ts)

/-- Basic consequences of `ValidCall`: the min-interval sleep separates the
new slot from `lastRequestTs` by at least `MIN_INTERVAL_MS`; the window
sleep pushes the new slot at least `WINDOW_MS` past the oldest surviving
entry when the pruned window is full. -/
theorem validCall_facts {s : RateLimiterState} {c : RateLimitCall}
    (h : ValidCall s c) :
    s.lastRequestTs + MIN_INTERVAL_MS ≤ c.n2
      ∧ c.n2 ≤ c.ts
      ∧ (MAX_REQS_PER_WINDOW ≤ (prunedRequests s c).length →
          (prunedRequests s c).headI + WINDOW_MS ≤ c.ts) := by
  obtain ⟨h1, hj1, hj1', hj2, hj2', h6, h7, h8⟩ := h
  have hn2 : s.lastRequestTs + MIN_INTERVAL_MS ≤ c.n2 := by
    by_cases hP : c.n1 - s.lastRequestTs < MIN_INTERVAL_MS
    · rw [if_pos hP] at h6
      linarith
    · rw [if_neg hP] at h6
      push_neg at hP
      linarith
  have hts : c.n3 ≤ c.ts := by
    by_cases hQ : MAX_REQS_PER_WINDOW ≤ (prunedRequests s c).length
    · rw [if_pos hQ] at h8
      have := le_max_right (WINDOW_MS - (c.n3 - (prunedRequests s c).headI) + c.j2)
        (0 : ℤ)
      linarith
    · rw [if_neg hQ] at h8
      exact h8
  refine ⟨hn2, by linarith, ?_⟩
  intro hQ
  rw [if_pos hQ] at h8
  have := le_max_left (WINDOW_MS - (c.n3 - (prunedRequests s c).headI) + c.j2) (0 : ℤ)
  linarith

/-- After pruning, the window never holds more than `MAX_REQS_PER_WINDOW`
entries: the state never exceeds `MAX + 1`, and when it holds `MAX + 1` the
oldest entry predates the previous grant by a full window, hence lies
before the new cutoff (the min-interval sleep makes `n2` strictly later
than the previous grant) and is shifted out. -/
theorem pruned_length_le (s : RateLimiterState) (c : RateLimitCall)
    (hlen : s.recentRequests.length ≤ MAX_REQS_PER_WINDOW + 1)
    (hhw : s.recentRequests.length = MAX_REQS_PER_WINDOW + 1 →
      s.recentRequests.headI + WINDOW_MS ≤ s.lastRequestTs)
    (hn2 : s.lastRequestTs + MIN_INTERVAL_MS ≤ c.n2) :
    (prunedRequests s c).length ≤ MAX_REQS_PER_WINDOW := by
  rcases Nat.lt_or_ge s.recentRequests.length (MAX_REQS_PER_WINDOW + 1) with hl | hl
  · have : (prunedRequests s c).length ≤ s.recentRequests.length := by
      unfold prunedRequests
      exact (List.dropWhile_sublist _).length_le
    omega
  · have hlen_eq : s.recentRequests.length = MAX_REQS_PER_WINDOW + 1 :=
      le_antisymm hlen hl
    have hhw' := hhw hlen_eq
    cases hrc : s.recentRequests with
    | nil =>
      rw [hrc] at hlen_eq
      simp [MAX_REQS_PER_WINDOW] at hlen_eq
    | cons h0 rest =>
      have hh0 : h0 < c.n2 - WINDOW_MS := by
        have hhead : s.recentRequests.headI = h0 := by rw [hrc]; rfl
        rw [hhead] at hhw'
        have hMIN : (0 : ℤ) < MIN_INTERVAL_MS := by norm_num [MIN_INTERVAL_MS]
        linarith
      have hdrop : prunedRequests s c
          = rest.dropWhile (fun t => t < c.n2 - WINDOW_MS) := by
        unfold prunedRequests
        rw [hrc, List.dropWhile_cons_of_pos (by simpa using hh0)]
      have : (prunedRequests s c).length ≤ rest.length := by
        rw [hdrop]
        exact (List.dropWhile_sublist _).length_le
      have hrest : rest.length = MAX_REQS_PER_WINDOW := by
        rw [hrc] at hlen_eq
        simpa using hlen_eq
      omega

/-- Inductive invariant tying the full grant history `H` to the limiter
state: grants are spaced by the minimum interval; the stored window is a
suffix of the history whose dropped part lies a full window before the last
grant; the window holds at most `MAX + 1` entries, and when full its oldest
entry is a full window before the last grant; and any two grants
`MAX_REQS_PER_WINDOW` positions apart are at least `WINDOW_MS` apart. -/
structure RLInv (H : List ℤ) (s : RateLimiterState) : Prop where
  chain : List.Pairwise (fun a b => a + MIN_INTERVAL_MS ≤ b) H
  suffix : ∃ d, H = d ++ s.recentRequests
    ∧ ∀ g ∈ d, g + WINDOW_MS ≤ s.lastRequestTs
  ub : ∀ g ∈ H, g ≤ s.lastRequestTs
  len : s.recentRequests.length ≤ MAX_REQS_PER_WINDOW + 1
  head_window : s.recentRequests.length = MAX_REQS_PER_WINDOW + 1 →
    s.recentRequests.headI + WINDOW_MS ≤ s.lastRequestTs
  window : ∀ i j : ℕ, j < H.length → i + MAX_REQS_PER_WINDOW ≤ j →
    H.getD i 0 + WINDOW_MS ≤ H.getD j 0

/-- The invariant holds initially. -/
theorem RLInv_init : RLInv [] initialRateLimiter := by
  refine ⟨List.Pairwise.nil, ⟨[], rfl, by simp⟩, by simp, ?_, ?_, ?_⟩
  · simp [initialRateLimiter, MAX_REQS_PER_WINDOW]
  · intro h
    simp [initialRateLimiter, MAX_REQS_PER_WINDOW] at h
  · intro i j hj _
    exact absurd hj (Nat.not_lt_zero j)

/-- One valid `waitForRateLimit` run preserves the invariant. -/
theorem RLInv_step {H : List ℤ} {s : RateLimiterState} {c : RateLimitCall}
    (inv : RLInv H s) (hv : ValidCall s c) :
    RLInv (H ++ [c.ts]) (rateLimitStep s c) := by
  obtain ⟨hn2, hn2ts, hfull⟩ := validCall_facts hv
  obtain ⟨d, hd, hdw⟩ := inv.suffix
  have hMIN : (0 : ℤ) < MIN_INTERVAL_MS := by norm_num [MIN_INTERVAL_MS]
  have hMAX : 0 < MAX_REQS_PER_WINDOW := by norm_num [MAX_REQS_PER_WINDOW]
  have hlast_ts : s.lastRequestTs ≤ c.ts := by linarith
  have hsplit : s.recentRequests.takeWhile (fun t => t < c.n2 - WINDOW_MS)
      ++ prunedRequests s c = s.recentRequests := by
    unfold prunedRequests
    exact List.takeWhile_append_dropWhile _ _
  have htw_lt : ∀ g ∈ s.recentRequests.takeWhile (fun t => t < c.n2 - WINDOW_MS),
      g < c.n2 - WINDOW_MS := by
    intro g hg
    simpa using List.mem_takeWhile_imp hg
  have hpr_le : (prunedRequests s c).length ≤ MAX_REQS_PER_WINDOW :=
    pruned_length_le s c inv.len inv.head_window hn2
  have hH2 : H = (d ++ s.recentRequests.takeWhile (fun t => t < c.n2 - WINDOW_MS))
      ++ prunedRequests s c := by
    conv_lhs => rw [hd, ← hsplit]
    rw [List.append_assoc]
  have hdtw : ∀ g ∈ d ++ s.recentRequests.takeWhile (fun t => t < c.n2 - WINDOW_MS),
      g + WINDOW_MS ≤ c.ts := by
    intro g hg
    rcases List.mem_append.mp hg with hmd | hmtw
    · linarith [hdw g hmd]
    · linarith [htw_lt g hmtw]
  constructor
  · -- chain
    refine List.pairwise_append.mpr ⟨inv.chain, List.pairwise_singleton _ _, ?_⟩
    intro a ha b hb
    rw [List.mem_singleton] at hb
    subst hb
    have := inv.ub a ha
    linarith
  · -- suffix
    refine ⟨d ++ s.recentRequests.takeWhile (fun t => t < c.n2 - WINDOW_MS), ?_, ?_⟩
    · have hre : H ++ [c.ts]
          = (d ++ s.recentRequests.takeWhile (fun t => t < c.n2 - WINDOW_MS))
            ++ (prunedRequests s c ++ [c.ts]) := by
        rw [hH2]
        simp only [List.append_assoc]
      exact hre
    · intro g hg
      exact hdtw g hg
  · -- ub
    intro g hg
    rcases List.mem_append.mp hg with hgH | hgt
    · exact le_trans (inv.ub g hgH) hlast_ts
    · rw [List.mem_singleton] at hgt
      subst hgt
      exact le_rfl
  · -- len
    show (prunedRequests s c ++ [c.ts]).length ≤ MAX_REQS_PER_WINDOW + 1
    rw [List.length_append, List.length_singleton]
    omega
  · -- head_window
    intro hlen'
    have hprM : (prunedRequests s c).length = MAX_REQS_PER_WINDOW := by
      have : (prunedRequests s c ++ [c.ts]).length = MAX_REQS_PER_WINDOW + 1 := hlen'
      rw [List.length_append, List.length_singleton] at this
      omega
    have hne : prunedRequests s c ≠ [] := by
      intro hnil
      rw [hnil] at hprM
      simp [MAX_REQS_PER_WINDOW] at hprM
    have hheadI : (prunedRequests s c ++ [c.ts]).headI = (prunedRequests s c).headI := by
      cases hcc : prunedRequests s c with
      | nil => exact absurd hcc hne
      | cons a l => rfl
    show (prunedRequests s c ++ [c.ts]).headI + WINDOW_MS ≤ c.ts
    rw [hheadI]
    exact hfull (by omega)
  · -- window
    intro i j hj hij
    rw [List.length_append, List.length_singleton] at hj
    rcases Nat.lt_or_ge j H.length with hjH | hjH
    · have hiH : i < H.length := by omega
      rw [List.getD_append _ _ _ _ hiH, List.getD_append _ _ _ _ hjH]
      exact inv.window i j hjH hij
    · have hjeq : j = H.length := by omega
      subst hjeq
      rw [show (H ++ [c.ts]).getD H.length 0 = c.ts from by
        rw [List.getD_append_right _ _ _ _ le_rfl]
        simp]
      have hiH : i < H.length := by omega
      rw [List.getD_append _ _ _ _ hiH]
      have hHM : MAX_REQS_PER_WINDOW ≤ H.length := by omega
      have hi₀H : H.length - MAX_REQS_PER_WINDOW < H.length := by omega
      have hmono : H.getD i 0 ≤ H.getD (H.length - MAX_REQS_PER_WINDOW) 0 := by
        rcases Nat.lt_or_ge i (H.length - MAX_REQS_PER_WINDOW) with hlt | hge
        · have hc := inv.chain
          rw [List.pairwise_iff_getElem] at hc
          have hrel := hc i (H.length - MAX_REQS_PER_WINDOW) hiH hi₀H hlt
          rw [List.getD_eq_getElem H 0 hiH, List.getD_eq_getElem H 0 hi₀H]
          linarith
        · have heq : i = H.length - MAX_REQS_PER_WINDOW := by omega
          rw [heq]
      have hkey : ∀ i0 : ℕ, i0 + MAX_REQS_PER_WINDOW = H.length →
          H.getD i0 0 + WINDOW_MS ≤ c.ts := by
        intro i0 hi0
        rcases Nat.lt_or_ge i0
            (d ++ s.recentRequests.takeWhile (fun t => t < c.n2 - WINDOW_MS)).length
            with hin | hout
        · have hmem : H.getD i0 0
              ∈ d ++ s.recentRequests.takeWhile (fun t => t < c.n2 - WINDOW_MS) := by
            rw [hH2, List.getD_append _ _ _ _ hin, List.getD_eq_getElem _ 0 hin]
            exact List.getElem_mem hin
          linarith [hdtw _ hmem]
        · have hlenH : H.length
              = (d ++ s.recentRequests.takeWhile
                  (fun t => t < c.n2 - WINDOW_MS)).length
                + (prunedRequests s c).length := by
            rw [hH2, List.length_append]
          have hprM : (prunedRequests s c).length = MAX_REQS_PER_WINDOW := by omega
          have hidx0 : i0
              - (d ++ s.recentRequests.takeWhile
                  (fun t => t < c.n2 - WINDOW_MS)).length = 0 := by omega
          have hgetD : H.getD i0 0 = (prunedRequests s c).headI := by
            rw [hH2, List.getD_append_right _ _ _ _ hout, hidx0]
            cases prunedRequests s c with
            | nil => rfl
            | cons a l => rfl
          rw [hgetD]
          exact hfull (by omega)
      have := hkey (H.length - MAX_REQS_PER_WINDOW) (by omega)
      linarith

/-- The invariant extends along any valid serialized trace. -/
theorem validTrace_inv (cs : List RateLimitCall) :
    ∀ (H : List ℤ) (s : RateLimiterState), RLInv H s → ValidTrace s cs →
      ∃ s', RLInv (H ++ grants cs) s' := by
  induction cs with
  | nil =>
    intro H s inv _
    exact ⟨s, by simpa [grants] using inv⟩
  | cons c cs ih =>
    intro H s inv hv
    obtain ⟨hc, hrest⟩ := hv
    obtain ⟨s', inv'⟩ := ih (H ++ [c.ts]) (rateLimitStep s c) (RLInv_step inv hc) hrest
    refine ⟨s', ?_⟩
    have hre : H ++ grants (c :: cs) = (H ++ [c.ts]) ++ grants cs := by
      rw [List.append_assoc]
      rfl
    rw [hre]
    exact inv'

/-- C1: rate limiting of the Geo Query Engine, default configuration
(`MIN_INTERVAL_MS = 2000`, `WINDOW_MS = 10000`, `MAX_REQS_PER_WINDOW = 3`).
For every serialized sequence of slot acquisitions through the process-wide
limiter: every sliding 10-second window `(t, t + WINDOW_MS]` contains at
most 3 granted request slots, and any two consecutive granted slots are
spaced at least 2000 ms apart. -/
theorem rate_limiter_sliding_window (cs : List RateLimitCall)
    (hv : ValidTrace initialRateLimiter cs) :
    (∀ t : ℤ, ((Finset.range (grants cs).length).filter
          (fun i => t < (grants cs).getD i 0
            ∧ (grants cs).getD i 0 ≤ t + WINDOW_MS)).card
        ≤ MAX_REQS_PER_WINDOW)
      ∧ List.Chain' (fun a b => a + MIN_INTERVAL_MS ≤ b) (grants cs) := by
  obtain ⟨s', inv⟩ := validTrace_inv cs [] initialRateLimiter RLInv_init hv
  rw [List.nil_append] at inv
  refine ⟨?_, inv.chain.chain'⟩
  intro t
  by_contra hcon
  push_neg at hcon
  have hM3 : MAX_REQS_PER_WINDOW = 3 := rfl
  set S := (Finset.range (grants cs).length).filter
      (fun i => t < (grants cs).getD i 0
        ∧ (grants cs).getD i 0 ≤ t + WINDOW_MS) with hS
  have hne : S.Nonempty := Finset.card_pos.mp (by omega)
  have hi0 : S.min' hne ∈ S := S.min'_mem hne
  have hj0 : S.max' hne ∈ S := S.max'_mem hne
  have hsub : S ⊆ Finset.Icc (S.min' hne) (S.max' hne) := by
    intro x hx
    rw [Finset.mem_Icc]
    exact ⟨S.min'_le x hx, S.le_max' x hx⟩
  have hcard : S.card ≤ S.max' hne - S.min' hne + 1 := by
    calc S.card ≤ (Finset.Icc (S.min' hne) (S.max' hne)).card :=
          Finset.card_le_card hsub
      _ = S.max' hne + 1 - S.min' hne := Nat.card_Icc _ _
      _ ≤ S.max' hne - S.min' hne + 1 := by omega
  have hgap : S.min' hne + MAX_REQS_PER_WINDOW ≤ S.max' hne := by omega
  have hi0m := Finset.mem_filter.mp hi0
  have hj0m := Finset.mem_filter.mp hj0
  have hj0len : S.max' hne < (grants cs).length := Finset.mem_range.mp hj0m.1
  have hw := inv.window (S.min' hne) (S.max' hne) hj0len hgap
  obtain ⟨hti0, -⟩ := hi0m.2
  obtain ⟨-, htj0⟩ := hj0m.2
  linarith

/-- A single concrete valid limiter call: entry at 5000 ms, no sleeps
needed. -/
def sampleCall : RateLimitCall :=
  { n1 := 5000, n2 := 5000, n3 := 5000, ts := 5000, j1 := 0, j2 := 0 }

/-- Witness for C1 on the one-call trace `[sampleCall]`. -/
theorem rate_limiter_sliding_window_witness :
    (∀ t : ℤ, ((Finset.range (grants [sampleCall]).length).filter
          (fun i => t < (grants [sampleCall]).getD i 0
            ∧ (grants [sampleCall]).getD i 0 ≤ t + WINDOW_MS)).card
        ≤ MAX_REQS_PER_WINDOW)
      ∧ List.Chain' (fun a b => a + MIN_INTERVAL_MS ≤ b) (grants [sampleCall]) :=
  rate_limiter_sliding_window [sampleCall]
    (by
      refine ⟨?_, trivial⟩
      unfold ValidCall prunedRequests initialRateLimiter sampleCall
      norm_num [MIN_INTERVAL_MS, MAX_REQS_PER_WINDOW, WINDOW_MS])

end AlcoholLocator
